import Mathlib

/-!
Verification of the description-keyword matcher core: a shallow embedding of
the vector-search routines, the response validators, the index loader and the
matching orchestrator (POST handler), with theorems checking the design
specification against them.

Modelling conventions, used throughout:
* JavaScript numbers are modelled as `ℚ` (exact arithmetic). A cosine
  similarity value `dot / (sqrt a * sqrt b)` is represented exactly by the
  pair `SimVal` standing for `num / Real.sqrt den`; comparisons on such
  values are computed by sign analysis and squaring, and proved equivalent
  to the real-number comparisons.
* JavaScript strings are Lean `String`; the handful of primitive string
  operations the source uses (toLowerCase, includes, split, trim,
  localeCompare) are given executable char-list models below. toLowerCase is
  modelled on the ASCII range, and localeCompare as code-point lexicographic
  comparison.
* Thrown exceptions are `Except` errors; each constructor corresponds to one
  throw site message of the source.
* `JSON.parse` is an oracle parameter `String → Option Json` (`none` models a
  parse exception); `Array.isArray` dispatch is a match on the `Json` shape.
* File reads, the embedding call and the generation call are oracle
  parameters of the loader/handler; the process-wide index cache is elided
  (it only memoizes the first successful load).
-/

deriving instance DecidableEq for Except

/-! ### String primitives (char-list models of the JS string operations) -/

/-- ASCII fragment of JS `String.prototype.toLowerCase` on one character. -/
def lowerChar (c : Char) : Char :=
  if 'A' ≤ c ∧ c ≤ 'Z' then Char.ofNat (c.toNat + 32) else c

/-- JS `s.toLowerCase()` (ASCII fragment). -/
def toLowerStr (s : String) : String := ⟨s.data.map lowerChar⟩

/-- Does the second list start with the first one? -/
def beginsWith : List Char → List Char → Bool
  | [], _ => true
  | _ :: _, [] => false
  | a :: as, b :: bs => a = b && beginsWith as bs

/-- JS `hay.includes(needle)`: the needle occurs as a contiguous segment. -/
def containsSeg (needle : List Char) : List Char → Bool
  | [] => beginsWith needle []
  | c :: cs => beginsWith needle (c :: cs) || containsSeg needle cs

/-- Code-point lexicographic comparison; the model of `a.localeCompare(b) ≤ 0`. -/
def lexLeChars : List Char → List Char → Bool
  | [], _ => true
  | _ :: _, [] => false
  | a :: as, b :: bs => if a < b then true else if a = b then lexLeChars as bs else false

/-- JS `s.split(regex)` for a single-character class regex: splits at every
character satisfying `p`, keeping empty segments (as JS does). -/
def splitOnPred (p : Char → Bool) : List Char → List (List Char)
  | [] => [[]]
  | c :: cs =>
    if p c then [] :: splitOnPred p cs
    else match splitOnPred p cs with
      | [] => [[c]]
      | seg :: rest => (c :: seg) :: rest

/-- Whitespace for the model of JS `trim` and `parseInt`. -/
def isWSChar (c : Char) : Bool := c = ' ' || c = '\n' || c = '\t' || c = '\r'

/-- JS `s.trim()`: drop whitespace from both ends. -/
def trimChars (l : List Char) : List Char :=
  ((l.dropWhile isWSChar).reverse.dropWhile isWSChar).reverse

/-! ### Data model (vectorSearch.ts) -/

/-- One taxonomy entry: `{ keyword, path, embedding }`. -/
structure KeywordEntry where
  keyword : String
  path : List String
  embedding : List ℚ
deriving DecidableEq

/-- The persisted/loaded index: `{ keywords, embeddingProvider?, embeddingModel?,
embeddingDimensions? }`. -/
structure KeywordIndex where
  keywords : List KeywordEntry
  embeddingProvider : Option String := none
  embeddingModel : Option String := none
  embeddingDimensions : Option ℕ := none
deriving DecidableEq

/-- The errors thrown by the vector-search routines, one constructor per
throw site:
* `vectorsMustHaveSameLength`: cosineSimilarity, "Vectors must have the same length";
* `indexHasNoEmbeddings`: "Keyword index does not contain embeddings.";
* `dimensionMismatch q i`: "Embedding dimension mismatch: query=q, index=i. ...";
* `inconsistentIndex`: "Keyword index has inconsistent embedding dimensions. ...". -/
inductive VError where
  | vectorsMustHaveSameLength
  | indexHasNoEmbeddings
  | dimensionMismatch (queryLen indexLen : ℕ)
  | inconsistentIndex
deriving DecidableEq

/-- The loop of cosineSimilarity accumulates `dotProduct += vecA[i] * vecB[i]`;
the same loop applied to a vector with itself accumulates its sum of squares
(`normA`, `normB` in the source). -/
def dotProduct : List ℚ → List ℚ → ℚ
  | a :: as, b :: bs => a * b + dotProduct as bs
  | _, _ => 0

/-- `normA` of the source before the square root: the sum of squares. -/
def sumSquares (v : List ℚ) : ℚ := dotProduct v v

/-- Exact representation of the float `num / Real.sqrt den` (for the source,
`num = dotProduct` and `den = normA * normB`, so that
`Real.sqrt den = Math.sqrt normA * Math.sqrt normB`, the denominator of the
source). The invariant `0 < den` holds for every value the code builds. -/
structure SimVal where
  num : ℚ
  den : ℚ
  den_pos : 0 < den

/-- cosineSimilarity of vectorSearch.ts. The source returns the number 0 when
`Math.sqrt normA * Math.sqrt normB === 0`, which happens exactly when
`normA * normB = 0`; the representation of 0 is `0 / Real.sqrt 1`. -/
def cosineSimilarity (vecA vecB : List ℚ) : Except VError SimVal :=
  if vecA.length ≠ vecB.length then .error .vectorsMustHaveSameLength
  else if h : sumSquares vecA * sumSquares vecB = 0 then .ok ⟨0, 1, one_pos⟩
  else
    .ok ⟨dotProduct vecA vecB, sumSquares vecA * sumSquares vecB, by
      have nn : ∀ v : List ℚ, 0 ≤ sumSquares v := by
        intro v
        induction v with
        | nil => simp [sumSquares, dotProduct]
        | cons x xs ih =>
          have : sumSquares (x :: xs) = x * x + sumSquares xs := rfl
          rw [this]
          nlinarith [mul_self_nonneg x]
      exact lt_of_le_of_ne (mul_nonneg (nn vecA) (nn vecB)) (Ne.symm h)⟩

/-- Comparison of two represented similarity values
(`x.num / sqrt x.den ≤ y.num / sqrt y.den`), computed over `ℚ` by sign
analysis and squaring; proved equivalent to the real comparison in
`SimVal.le_iff_real` below. -/
def SimVal.le (x y : SimVal) : Bool :=
  if x.num ≤ 0 ∧ 0 ≤ y.num then true
  else if 0 ≤ x.num ∧ 0 ≤ y.num then decide (x.num ^ 2 * y.den ≤ y.num ^ 2 * x.den)
  else if x.num ≤ 0 ∧ y.num ≤ 0 then decide (y.num ^ 2 * x.den ≤ x.num ^ 2 * y.den)
  else false

/-- Equality of the represented values (JS `===` on the two floats). -/
def SimVal.valEq (x y : SimVal) : Bool := x.le y && y.le x

/-- One element of the `similarities` array of findTopSimilar, together with
its original position in `keywords`. ES2019 `Array.prototype.sort` is stable,
and a stable sort by a key equals a sort by (key, original position); `pos`
carries the original position so the sort below can be expressed with a total
order. -/
structure SimItem where
  pos : ℕ
  entry : KeywordEntry
  sim : SimVal

/-- The sort order of `similarities.sort((a, b) => b.similarity - a.similarity)`
together with the stability tie-break: descending by represented similarity
value, ties in original position order. -/
def simItemLe (a b : SimItem) : Bool :=
  if SimVal.valEq a.sim b.sim then a.pos ≤ b.pos else SimVal.le b.sim a.sim

/-- `keywordIndex.keywords.find((entry) => entry.embedding && entry.embedding.length > 0)?.embedding`. -/
def firstNonEmptyEmbedding (keywordIndex : KeywordIndex) : Option (List ℚ) :=
  (keywordIndex.keywords.find? (fun e => 0 < e.embedding.length)).map (·.embedding)

/-- `keywordIndex.embeddingDimensions || (firstEmbedding ? firstEmbedding.length : 0)`.
JS `||` takes the right operand when `embeddingDimensions` is `undefined` or `0`. -/
def expectedDimensions (keywordIndex : KeywordIndex) : ℕ :=
  match keywordIndex.embeddingDimensions with
  | some d =>
    if d ≠ 0 then d
    else match firstNonEmptyEmbedding keywordIndex with
      | some f => f.length
      | none => 0
  | none =>
    match firstNonEmptyEmbedding keywordIndex with
    | some f => f.length
    | none => 0

/-- `keywords.map(...)` where the mapped function can throw: the first thrown
error propagates, as an exception aborts the JS `map`. -/
def mapExcept (f : α → Except ε β) : List α → Except ε (List β)
  | [] => .ok []
  | a :: as =>
    match f a with
    | .error e => .error e
    | .ok b =>
      match mapExcept f as with
      | .error e => .error e
      | .ok bs => .ok (b :: bs)

/-- findTopSimilar of vectorSearch.ts. The precondition checks mirror the
source: the `find` for an inconsistent entry followed by a truthiness test is
written with `List.any`; the map computing similarities can throw from inside
cosineSimilarity, hence `mapExcept`; the stable sort and `slice(0, topN)` are
the insertion sort by `simItemLe` followed by `take`. -/
def findTopSimilar (queryEmbedding : List ℚ) (keywordIndex : KeywordIndex)
    (topN : ℕ) : Except VError (List KeywordEntry) :=
  match firstNonEmptyEmbedding keywordIndex with
  | none => .error .indexHasNoEmbeddings
  | some firstEmbedding =>
    if expectedDimensions keywordIndex = 0 then .error .indexHasNoEmbeddings
    else if queryEmbedding.length ≠ expectedDimensions keywordIndex then
      .error (.dimensionMismatch queryEmbedding.length (expectedDimensions keywordIndex))
    else if keywordIndex.keywords.any
        (fun e => e.embedding.length != firstEmbedding.length) then
      .error .inconsistentIndex
    else
      match mapExcept
          (fun ie => match cosineSimilarity queryEmbedding ie.2.embedding with
            | .error e => .error e
            | .ok s => .ok (SimItem.mk ie.1 ie.2 s))
          keywordIndex.keywords.enum with
      | .error e => .error e
      | .ok sims =>
        .ok (((List.insertionSort (fun a b => simItemLe a b = true) sims).take topN).map
          (·.entry))

/-! ### Validators (lib/validators.ts) -/

/-- The values `JSON.parse` can produce. -/
inductive Json where
  | null
  | bool (b : Bool)
  | num (q : ℚ)
  | str (s : String)
  | arr (elems : List Json)
  | obj (fields : List (String × Json))

/-- JS `array.join(",")`, the array case of `String(...)`. -/
def joinComma : List String → String
  | [] => ""
  | [s] => s
  | s :: rest => s ++ "," ++ joinComma rest

/-- JS `String(value)` on a parsed JSON value. Numbers are rendered by the
rational printer, which agrees with JS for integral values, and a null inside
a nested array renders as "null" where JS renders it empty (no claim depends
on either rendering). -/
def jsToString : Json → String
  | .null => "null"
  | .bool true => "true"
  | .bool false => "false"
  | .num q => toString q
  | .str s => s
  | .arr l => joinComma (l.attach.map (fun x => jsToString x.1))
  | .obj _ => "[object Object]"
decreasing_by
  simp only [Json.arr.sizeOf_spec]
  have := List.sizeOf_lt_of_mem x.2
  omega

/-- The final fallback of extractKeywordsFromLLMResponse: split the raw text
on every comma or newline, trim each segment, and keep the segments that are
non-empty and do not start with a bracket or an opening brace (written
`Char.ofNat 123`). -/
def fallbackSplit (response : String) : List String :=
  (((splitOnPred (fun c => c = ',' || c = '\n') response.data).map trimChars).filter
    (fun seg => !seg.isEmpty && !(seg.head? == some '[') && !(seg.head? == some (Char.ofNat 123)))).map
    (⟨·⟩)

/-- extractKeywordsFromLLMResponse of validators.ts. `jsonParse` is the
`JSON.parse` oracle (`none` models the parse throwing). A parsed array, or a
parsed record whose `keywords` field is an array, is projected to its
stringified trimmed non-empty elements (`filter (· != "")` is
`.filter(Boolean)`); anything else falls back to splitting the raw text. A
record whose `keywords` field is absent, falsy or not an array parses without
error but returns from neither `if`, so control also reaches the split code. -/
def extractKeywordsFromLLMResponse (jsonParse : String → Option Json)
    (response : String) : List String :=
  match jsonParse response with
  | some (.arr items) =>
    (items.map (fun item => ⟨trimChars (jsToString item).data⟩)).filter (· != "")
  | some (.obj fields) =>
    match fields.lookup "keywords" with
    | some (.arr items) =>
      (items.map (fun item => ⟨trimChars (jsToString item).data⟩)).filter (· != "")
    | _ => fallbackSplit response
  | _ => fallbackSplit response

/-- validateKeywords of validators.ts: keep the candidates present in the
allowed set, in order. The JS `Set<string>` is modelled by a list tested with
`contains`; membership is the same. -/
def validateKeywords (candidateKeywords : List String)
    (allowedKeywords : List String) : List String :=
  candidateKeywords.filter (allowedKeywords.contains ·)

/-- getAllowedKeywordsSet of validators.ts: the projection of all `keyword`
fields of the index. -/
def getAllowedKeywordsSet (keywordIndex : KeywordIndex) : List String :=
  keywordIndex.keywords.map (·.keyword)

/-- The route calls validateKeywords with candidates that are arbitrary parsed
JSON values (the source casts without checking). `Set<string>.has` is false on
every non-string, so exactly the string candidates that are allowed keywords
survive. -/
def validateKeywordsJ (candidates : List Json) (allowedKeywords : List String) :
    List String :=
  candidates.filterMap (fun c =>
    match c with
    | .str s => if allowedKeywords.contains s then some s else none
    | _ => none)

/-! ### Configuration (lib/config.ts) -/

/-- `config.targetKeywordCount.min` (hardcoded 10 in config.ts). -/
def targetKeywordCountMin : ℕ := 10

/-- `config.targetKeywordCount.max` (hardcoded 15 in config.ts). -/
def targetKeywordCountMax : ℕ := 15

/-- `config.shortlistSize` default (`SHORTLIST_SIZE` unset: 50). -/
def shortlistSizeDefault : ℕ := 50

/-- Which API credentials are configured: the truthiness of the three key
strings of config.ts. -/
structure Config where
  openaiApiKey : Bool
  geminiApiKey : Bool
  openrouterApiKey : Bool
deriving DecidableEq

/-! ### The keywordCount request field and its JS number arithmetic -/

/-- The numbers that arise from `parseInt` and the min/max clamp: an integer
or NaN. -/
inductive JSNum where
  | int (n : ℤ)
  | nan
deriving DecidableEq

/-- `Math.max(a, b)` for an integer `b`; NaN propagates. -/
def jsMax (a : JSNum) (b : ℤ) : JSNum :=
  match a with
  | .nan => .nan
  | .int n => .int (max n b)

/-- `Math.min(a, b)` for an integer `b`; NaN propagates. -/
def jsMin (a : JSNum) (b : ℤ) : JSNum :=
  match a with
  | .nan => .nan
  | .int n => .int (min n b)

/-- `xs.slice(0, count)`: a NaN bound converts to 0 (empty result); a negative
bound counts from the end (not reachable after the clamp, modelled anyway). -/
def jsTake (count : JSNum) (xs : List α) : List α :=
  match count with
  | .nan => []
  | .int n => if 0 ≤ n then xs.take n.toNat else xs.take (xs.length - n.natAbs)

/-- The request `keywordCount` field: absent (`undefined`), a JSON string, or
a JSON number (an integer or NaN). -/
inductive KCVal where
  | absent
  | str (s : String)
  | num (n : JSNum)
deriving DecidableEq

/-- JS truthiness of the `keywordCount` value: `undefined`, `""`, `0` and
`NaN` are falsy. -/
def KCVal.truthy : KCVal → Bool
  | .absent => false
  | .str s => s != ""
  | .num (.int n) => n != 0
  | .num .nan => false

/-- JS `String(keywordCount)`. -/
def KCVal.toStringJS : KCVal → String
  | .absent => "undefined"
  | .str s => s
  | .num (.int n) => toString n
  | .num .nan => "NaN"

/-- JS `parseInt(s)`: skip leading whitespace, read an optional sign and then
leading decimal digits; NaN when there is no digit. The hexadecimal `0x`
prefix form of parseInt is not modelled (no claim involves it; a `0x` input
reads as the leading digit 0 here). -/
def parseIntJS (s : String) : JSNum :=
  match s.data.dropWhile isWSChar with
  | '-' :: rest =>
    match rest.takeWhile Char.isDigit with
    | [] => .nan
    | ds => .int (-(ds.foldl (fun acc c => 10 * acc + (c.toNat - '0'.toNat)) 0 : ℕ))
  | '+' :: rest =>
    match rest.takeWhile Char.isDigit with
    | [] => .nan
    | ds => .int (ds.foldl (fun acc c => 10 * acc + (c.toNat - '0'.toNat)) 0 : ℕ)
  | rest =>
    match rest.takeWhile Char.isDigit with
    | [] => .nan
    | ds => .int (ds.foldl (fun acc c => 10 * acc + (c.toNat - '0'.toNat)) 0 : ℕ)

/-- The count used by the lexical and direct branches:
`keywordCount ? Math.min(Math.max(parseInt(String(keywordCount)), 1), 50)
             : config.targetKeywordCount.max`. -/
def requestedCount (keywordCount : KCVal) : JSNum :=
  if keywordCount.truthy then jsMin (jsMax (parseIntJS keywordCount.toStringJS) 1) 50
  else .int targetKeywordCountMax

/-! ### The matching route (POST handler) -/

/-- The tokens of a (lowercased) keyword:
`keywordLower.split(/[^a-z0-9]+/g).filter(Boolean)`. Splitting on a run of
separators instead of a single separator only adds empty segments, which the
filter drops. -/
def keywordTokens (keywordLower : String) : List String :=
  ((splitOnPred
      (fun c => !((decide ('a' ≤ c) && decide (c ≤ 'z')) ||
                  (decide ('0' ≤ c) && decide (c ≤ '9'))))
      keywordLower.data).filter (· ≠ [])).map (⟨·⟩)

/-- The token-overlap part of the lexical score: the number of tokens of
length greater than 2 that occur in the normalized description. -/
def lexicalOverlap (normalizedDescription keywordLower : String) : ℕ :=
  ((keywordTokens keywordLower).filter
    (fun word => decide (2 < word.length) &&
      containsSeg word.data normalizedDescription.data)).length

/-- The lexical score of one entry: 3 if the whole lowercased keyword occurs
in the normalized description, plus the token overlap. -/
def lexicalScore (normalizedDescription keyword : String) : ℕ :=
  (if containsSeg (toLowerStr keyword).data normalizedDescription.data then 3 else 0)
    + lexicalOverlap normalizedDescription (toLowerStr keyword)

/-- One element of `keywordsWithScore`. -/
structure ScoredKeyword where
  keyword : String
  score : ℕ
deriving DecidableEq

/-- The comparator `(a, b) => b.score - a.score || a.keyword.localeCompare(b.keyword)`
as a total order: descending score, ties in lexicographic keyword order. -/
def scoredLe (a b : ScoredKeyword) : Bool :=
  if a.score = b.score then lexLeChars a.keyword.data b.keyword.data
  else decide (b.score < a.score)

/-- `keywordsWithScore` of the lexical fallback branch: score every entry,
drop scores of zero, sort by the comparator. -/
def lexicalRanking (description : String) (keywordIndex : KeywordIndex) :
    List ScoredKeyword :=
  List.insertionSort (fun a b => scoredLe a b = true)
    ((keywordIndex.keywords.map
        (fun e => ScoredKeyword.mk e.keyword
          (lexicalScore (toLowerStr description) e.keyword))).filter
      (fun item => decide (0 < item.score)))

/-- The keyword list of the lexical branch response:
`keywordsWithScore.map(item => item.keyword).slice(0, count).filter(k => allowedKeywords.has(k))`. -/
def lexicalKeywords (description : String) (keywordIndex : KeywordIndex)
    (keywordCount : KCVal) (allowedKeywords : List String) : List String :=
  (jsTake (requestedCount keywordCount)
      ((lexicalRanking description keywordIndex).map (·.keyword))).filter
    (allowedKeywords.contains ·)

/-- The keyword list of the direct branch response:
`shortlistKeywords.slice(0, count).filter(k => allowedKeywords.has(k))`. -/
def directKeywords (shortlistKeywords : List String)
    (allowedKeywords : List String) (keywordCount : KCVal) : List String :=
  (jsTake (requestedCount keywordCount) shortlistKeywords).filter
    (allowedKeywords.contains ·)

/-- The in-route extraction of `selectedKeywords` from the raw generation
output (the try/catch block of the POST handler). A parse exception falls back
to extractKeywordsFromLLMResponse; `typeof null` is `"object"` but
`Object.values(null)` throws, which the same catch turns into the fallback; a
parsed object with no array `keywords` field is searched for any array value;
a parsed primitive leaves `selectedKeywords` as the initial empty array. -/
def routeExtractSelected (jsonParse : String → Option Json) (llmContent : String) :
    List Json :=
  match jsonParse llmContent with
  | some (.arr items) => items
  | some (.obj fields) =>
    match fields.lookup "keywords" with
    | some (.arr items) => items
    | _ =>
      match (fields.map Prod.snd).find?
          (fun v => match v with | .arr _ => true | _ => false) with
      | some (.arr items) => items
      | _ => []
  | some .null => (extractKeywordsFromLLMResponse jsonParse llmContent).map .str
  | some _ => []
  | none => (extractKeywordsFromLLMResponse jsonParse llmContent).map .str

/-- The fallback-on-under-validation policy of the llm branch: when fewer
than `targetKeywordCountMin` candidates survived validation, the top
`targetKeywordCountMax` shortlist keywords (re-filtered through the allowed
set) replace them; otherwise the validated list capped at
`targetKeywordCountMax` is the result. -/
def llmFinalKeywords (shortlistKeywords validatedKeywords : List String)
    (allowedKeywords : List String) : List String :=
  if validatedKeywords.length < targetKeywordCountMin then
    (shortlistKeywords.take targetKeywordCountMax).filter (allowedKeywords.contains ·)
  else
    validatedKeywords.take targetKeywordCountMax

/-- The errors a request can end in, one constructor per throw/return site of
the loader and the handler. -/
inductive RouteError where
  | invalidInput
  | keywordsFileNotFound
  | indexNotFound
  | indexMissingEmbeddings
  | noApiKeyForLLM
  | embeddingFailed (msg : String)
  | generationFailed (msg : String)
  | vectorError (e : VError)
deriving DecidableEq

/-- buildKeywordIndexFromKeywords: synthesize an index from the keywords file
with every embedding empty. `keywordsFile` is the parsed file when it exists. -/
def buildKeywordIndexFromKeywords
    (keywordsFile : Option (List (String × List String))) :
    Except RouteError KeywordIndex :=
  match keywordsFile with
  | none => .error .keywordsFileNotFound
  | some ks => .ok { keywords := ks.map (fun k => KeywordEntry.mk k.1 k.2 []) }

/-- loadKeywordIndex: `persisted` is the parsed keyword-index file when it
exists. When it is missing, the degraded build runs exactly when
`config.openaiApiKey` is falsy; when it exists, it is rejected if a key is
configured but some entry lacks embeddings. The process-wide cache is elided
(it memoizes the first successful result). -/
def loadKeywordIndex (cfg : Config) (persisted : Option KeywordIndex)
    (keywordsFile : Option (List (String × List String))) :
    Except RouteError KeywordIndex :=
  match persisted with
  | none =>
    if !cfg.openaiApiKey then buildKeywordIndexFromKeywords keywordsFile
    else .error .indexNotFound
  | some keywordIndex =>
    if (cfg.openaiApiKey || cfg.geminiApiKey) &&
        keywordIndex.keywords.any (fun e => e.embedding.isEmpty) then
      .error .indexMissingEmbeddings
    else .ok keywordIndex

/-- The request body fields the handler reads (the llmProvider selector only
chooses which provider is called and is folded into the generation oracle). -/
structure MatchRequest where
  description : String
  useLLM : Bool
  keywordCount : KCVal
deriving DecidableEq

/-- `method` of the response. -/
inductive Method where
  | lexical
  | direct
  | llm
deriving DecidableEq

/-- The success response body `{keywords, shortlistSize, validatedCount, method}`. -/
structure MatchResponse where
  keywords : List String
  shortlistSize : ℕ
  validatedCount : ℕ
  method : Method
deriving DecidableEq

/-- The POST handler of the matching route. External effects are oracle
parameters: `persisted` and `keywordsFile` the two files, `embedOutcome` the
result of `embedText(description)`, `generationOutcome` the raw text of the
chosen generation provider (error: the provider call threw), `jsonParse` the
`JSON.parse` oracle. Branches in source order: input validation, index load,
LLM key check, lexical fallback, embedding, shortlist, direct return, and the
refinement path ending in the fallback policy. -/
def post (cfg : Config) (req : MatchRequest)
    (persisted : Option KeywordIndex)
    (keywordsFile : Option (List (String × List String)))
    (embedOutcome : Except String (List ℚ))
    (generationOutcome : Except String String)
    (jsonParse : String → Option Json) :
    Except RouteError MatchResponse :=
  if req.description = "" then .error .invalidInput
  else
    match loadKeywordIndex cfg persisted keywordsFile with
    | .error e => .error e
    | .ok keywordIndex =>
      if req.useLLM && !cfg.openaiApiKey && !cfg.geminiApiKey && !cfg.openrouterApiKey then
        .error .noApiKeyForLLM
      else if !cfg.openaiApiKey && !cfg.geminiApiKey && !req.useLLM then
        .ok (MatchResponse.mk
          (lexicalKeywords req.description keywordIndex req.keywordCount
            (getAllowedKeywordsSet keywordIndex))
          keywordIndex.keywords.length
          (lexicalKeywords req.description keywordIndex req.keywordCount
            (getAllowedKeywordsSet keywordIndex)).length
          .lexical)
      else
        match embedOutcome with
        | .error msg => .error (.embeddingFailed msg)
        | .ok descriptionEmbedding =>
          match findTopSimilar descriptionEmbedding keywordIndex shortlistSizeDefault with
          | .error e => .error (.vectorError e)
          | .ok shortlist =>
            if !req.useLLM then
              .ok (MatchResponse.mk
                (directKeywords (shortlist.map (·.keyword))
                  (getAllowedKeywordsSet keywordIndex) req.keywordCount)
                shortlist.length
                (directKeywords (shortlist.map (·.keyword))
                  (getAllowedKeywordsSet keywordIndex) req.keywordCount).length
                .direct)
            else
              match generationOutcome with
              | .error msg => .error (.generationFailed msg)
              | .ok llmContent =>
                .ok (MatchResponse.mk
                  (llmFinalKeywords (shortlist.map (·.keyword))
                    (validateKeywordsJ (routeExtractSelected jsonParse llmContent)
                      (getAllowedKeywordsSet keywordIndex))
                    (getAllowedKeywordsSet keywordIndex))
                  shortlist.length
                  (validateKeywordsJ (routeExtractSelected jsonParse llmContent)
                    (getAllowedKeywordsSet keywordIndex)).length
                  .llm)

/-! ### Specification-side definitions -/

/-- Specification-side ranking order used to state the law of findTopSimilar
over the real numbers: the indexed entry `a` comes before `b` when the real
cosine similarity of the query and the entry of `a` is strictly greater than
that of `b`, or the two are equal and `a` has the smaller original position.
The real cosine similarity of `q` and `v` is
`dot q v / (sqrt (sumSquares q) * sqrt (sumSquares v))`; division by zero is
0 in Lean, which matches the zero-denominator convention of the source. -/
def RankedBefore (q : List ℚ) (a b : ℕ × KeywordEntry) : Prop :=
  ((dotProduct q b.2.embedding : ℚ) : ℝ) /
      (Real.sqrt ((sumSquares q : ℚ) : ℝ) * Real.sqrt ((sumSquares b.2.embedding : ℚ) : ℝ)) <
    ((dotProduct q a.2.embedding : ℚ) : ℝ) /
      (Real.sqrt ((sumSquares q : ℚ) : ℝ) * Real.sqrt ((sumSquares a.2.embedding : ℚ) : ℝ)) ∨
  (((dotProduct q a.2.embedding : ℚ) : ℝ) /
      (Real.sqrt ((sumSquares q : ℚ) : ℝ) * Real.sqrt ((sumSquares a.2.embedding : ℚ) : ℝ)) =
    ((dotProduct q b.2.embedding : ℚ) : ℝ) /
      (Real.sqrt ((sumSquares q : ℚ) : ℝ) * Real.sqrt ((sumSquares b.2.embedding : ℚ) : ℝ)) ∧
    a.1 ≤ b.1)

/-- The mock index of the vectorSearch test suite (used as a concrete input
by witnesses). -/
def mockIndex : KeywordIndex := { keywords := [
  ⟨"keyword1", ["test"], [1, 0, 0]⟩,
  ⟨"keyword2", ["test"], [0, 1, 0]⟩,
  ⟨"keyword3", ["test"], [0, 0, 1]⟩,
  ⟨"keyword4", ["test"], [9/10, 1/10, 0]⟩] }

/-! ### Helper lemmas: sums of squares and the real value of a SimVal -/

theorem sumSquares_nonneg (v : List ℚ) : 0 ≤ sumSquares v := by
  induction v with
  | nil => simp [sumSquares, dotProduct]
  | cons x xs ih =>
    have hc : sumSquares (x :: xs) = x * x + sumSquares xs := rfl
    rw [hc]
    nlinarith [mul_self_nonneg x]

theorem cosineSimilarity_ok_real {vecA vecB : List ℚ} {s : SimVal}
    (h : cosineSimilarity vecA vecB = .ok s) :
    (s.num : ℝ) / Real.sqrt (s.den : ℝ) =
      ((dotProduct vecA vecB : ℚ) : ℝ) /
        (Real.sqrt ((sumSquares vecA : ℚ) : ℝ) * Real.sqrt ((sumSquares vecB : ℚ) : ℝ)) := by
  unfold cosineSimilarity at h
  split_ifs at h with hlen hz
  · obtain rfl : (⟨0, 1, one_pos⟩ : SimVal) = s := by exact Except.ok.inj h
    have : ((sumSquares vecA : ℚ) : ℝ) * ((sumSquares vecB : ℚ) : ℝ) = 0 := by
      exact_mod_cast congrArg (fun q : ℚ => (q : ℝ)) hz
    rcases mul_eq_zero.mp this with h0 | h0 <;>
      simp [h0, Real.sqrt_eq_zero', Real.sqrt_zero]
  · obtain rfl : (⟨dotProduct vecA vecB, sumSquares vecA * sumSquares vecB, _⟩ : SimVal) = s :=
      Except.ok.inj h
    have hcast : ((sumSquares vecA * sumSquares vecB : ℚ) : ℝ) =
        ((sumSquares vecA : ℚ) : ℝ) * ((sumSquares vecB : ℚ) : ℝ) := by push_cast; ring
    simp only [hcast]
    rw [Real.sqrt_mul (by exact_mod_cast sumSquares_nonneg vecA)]

/-- The computable comparison of two represented similarity values agrees
with the comparison of the real numbers they stand for. -/
theorem SimVal.le_iff_real (x y : SimVal) :
    SimVal.le x y = true ↔
      (x.num : ℝ) / Real.sqrt (x.den : ℝ) ≤ (y.num : ℝ) / Real.sqrt (y.den : ℝ) := by
  have hxd : (0 : ℝ) < (x.den : ℝ) := by exact_mod_cast x.den_pos
  have hyd : (0 : ℝ) < (y.den : ℝ) := by exact_mod_cast y.den_pos
  have hx : (0 : ℝ) < Real.sqrt (x.den : ℝ) := Real.sqrt_pos.mpr hxd
  have hy : (0 : ℝ) < Real.sqrt (y.den : ℝ) := Real.sqrt_pos.mpr hyd
  rw [div_le_div_iff₀ hx hy]
  unfold SimVal.le
  split_ifs with h1 h2 h3
  · refine iff_of_true rfl ?_
    have hl : (x.num : ℝ) * Real.sqrt (y.den : ℝ) ≤ 0 :=
      mul_nonpos_of_nonpos_of_nonneg (by exact_mod_cast h1.1) hy.le
    have hr : 0 ≤ (y.num : ℝ) * Real.sqrt (x.den : ℝ) :=
      mul_nonneg (by exact_mod_cast h1.2) hx.le
    linarith
  · rw [decide_eq_true_eq]
    have hxn : (0 : ℝ) ≤ (x.num : ℝ) := by exact_mod_cast h2.1
    have hyn : (0 : ℝ) ≤ (y.num : ℝ) := by exact_mod_cast h2.2
    have hsq : (x.num : ℝ) * Real.sqrt (y.den : ℝ) ≤ (y.num : ℝ) * Real.sqrt (x.den : ℝ) ↔
        ((x.num : ℝ) * Real.sqrt (y.den : ℝ)) ^ 2 ≤ ((y.num : ℝ) * Real.sqrt (x.den : ℝ)) ^ 2 :=
      (pow_le_pow_iff_left₀ (mul_nonneg hxn hy.le) (mul_nonneg hyn hx.le) two_ne_zero).symm
    rw [hsq, mul_pow, mul_pow, Real.sq_sqrt hyd.le, Real.sq_sqrt hxd.le]
    constructor
    · intro h; exact_mod_cast h
    · intro h; exact_mod_cast h
  · rw [decide_eq_true_eq]
    have hxn : (x.num : ℝ) ≤ 0 := by exact_mod_cast h3.1
    have hyn : (y.num : ℝ) ≤ 0 := by exact_mod_cast h3.2
    have hneg : (x.num : ℝ) * Real.sqrt (y.den : ℝ) ≤ (y.num : ℝ) * Real.sqrt (x.den : ℝ) ↔
        (-(y.num : ℝ)) * Real.sqrt (x.den : ℝ) ≤ (-(x.num : ℝ)) * Real.sqrt (y.den : ℝ) := by
      constructor <;> intro h <;> nlinarith
    have hsq : (-(y.num : ℝ)) * Real.sqrt (x.den : ℝ) ≤ (-(x.num : ℝ)) * Real.sqrt (y.den : ℝ) ↔
        ((-(y.num : ℝ)) * Real.sqrt (x.den : ℝ)) ^ 2 ≤ ((-(x.num : ℝ)) * Real.sqrt (y.den : ℝ)) ^ 2 :=
      (pow_le_pow_iff_left₀ (mul_nonneg (by linarith) hx.le)
        (mul_nonneg (by linarith) hy.le) two_ne_zero).symm
    rw [hneg, hsq, mul_pow, mul_pow, Real.sq_sqrt hyd.le, Real.sq_sqrt hxd.le,
      neg_pow, neg_pow]
    constructor
    · intro h
      have h' : (y.num : ℚ) ^ 2 * x.den ≤ (x.num : ℚ) ^ 2 * y.den := h
      have := (Rat.cast_le (K := ℝ)).mpr h'
      push_cast at this ⊢
      linarith
    · intro h
      have h' : ((y.num : ℝ)) ^ 2 * (x.den : ℝ) ≤ ((x.num : ℝ)) ^ 2 * (y.den : ℝ) := by
        push_cast at h ⊢
        linarith
      exact_mod_cast h'
  · refine iff_of_false (by simp) ?_
    have hxpos : 0 < x.num := by
      rcases le_or_lt x.num 0 with hle | hlt
      · exfalso
        rcases le_or_lt y.num 0 with hyle | hylt
        · exact h3 ⟨hle, hyle⟩
        · exact h1 ⟨hle, hylt.le⟩
      · exact hlt
    have hyneg : y.num < 0 := by
      rcases le_or_lt y.num 0 with hyle | hylt
      · rcases lt_or_eq_of_le hyle with hlt | heq
        · exact hlt
        · exact absurd ⟨hxpos.le, heq.ge⟩ h2
      · exact absurd ⟨hxpos.le, hylt.le⟩ h2
    have hl : 0 < (x.num : ℝ) * Real.sqrt (y.den : ℝ) :=
      mul_pos (by exact_mod_cast hxpos) hy
    have hr : (y.num : ℝ) * Real.sqrt (x.den : ℝ) < 0 :=
      mul_neg_of_neg_of_pos (by exact_mod_cast hyneg) hx
    intro hcon
    linarith

/-- Value equality of two represented similarity values is equality of the
real numbers they stand for. -/
theorem SimVal.valEq_iff_real (x y : SimVal) :
    SimVal.valEq x y = true ↔
      (x.num : ℝ) / Real.sqrt (x.den : ℝ) = (y.num : ℝ) / Real.sqrt (y.den : ℝ) := by
  unfold SimVal.valEq
  rw [Bool.and_eq_true, SimVal.le_iff_real, SimVal.le_iff_real]
  exact ⟨fun h => le_antisymm h.1 h.2, fun h => ⟨h.le, h.ge⟩⟩

/-- The sort order of findTopSimilar characterized over the real similarity
values: strictly greater similarity first, ties in original position order. -/
theorem simItemLe_iff (a b : SimItem) :
    simItemLe a b = true ↔
      ((b.sim.num : ℝ) / Real.sqrt (b.sim.den : ℝ) <
          (a.sim.num : ℝ) / Real.sqrt (a.sim.den : ℝ) ∨
        ((a.sim.num : ℝ) / Real.sqrt (a.sim.den : ℝ) =
            (b.sim.num : ℝ) / Real.sqrt (b.sim.den : ℝ) ∧ a.pos ≤ b.pos)) := by
  unfold simItemLe
  split_ifs with h
  · have he := (SimVal.valEq_iff_real a.sim b.sim).mp h
    rw [decide_eq_true_eq]
    constructor
    · intro hp
      exact Or.inr ⟨he, hp⟩
    · rintro (hlt | ⟨_, hp⟩)
      · rw [he] at hlt
        exact absurd hlt (lt_irrefl _)
      · exact hp
  · have hne : (a.sim.num : ℝ) / Real.sqrt (a.sim.den : ℝ) ≠
        (b.sim.num : ℝ) / Real.sqrt (b.sim.den : ℝ) :=
      fun hc => h ((SimVal.valEq_iff_real _ _).mpr hc)
    rw [SimVal.le_iff_real]
    constructor
    · intro hle
      exact Or.inl (lt_of_le_of_ne hle fun hc => hne hc.symm)
    · rintro (hlt | ⟨heq, _⟩)
      · exact hlt.le
      · exact absurd heq hne

theorem simItemLe_total (a b : SimItem) : simItemLe a b = true ∨ simItemLe b a = true := by
  rw [simItemLe_iff, simItemLe_iff]
  rcases lt_trichotomy ((a.sim.num : ℝ) / Real.sqrt (a.sim.den : ℝ))
      ((b.sim.num : ℝ) / Real.sqrt (b.sim.den : ℝ)) with h | h | h
  · exact Or.inr (Or.inl h)
  · rcases Nat.le_total a.pos b.pos with hp | hp
    · exact Or.inl (Or.inr ⟨h, hp⟩)
    · exact Or.inr (Or.inr ⟨h.symm, hp⟩)
  · exact Or.inl (Or.inl h)

theorem simItemLe_trans (a b c : SimItem) (hab : simItemLe a b = true)
    (hbc : simItemLe b c = true) : simItemLe a c = true := by
  rw [simItemLe_iff] at hab hbc ⊢
  rcases hab with h1 | ⟨h1, p1⟩ <;> rcases hbc with h2 | ⟨h2, p2⟩
  · exact Or.inl (h2.trans h1)
  · rw [← h2]
    exact Or.inl h1
  · rw [h1]
    exact Or.inl h2
  · exact Or.inr ⟨h1.trans h2, p1.trans p2⟩

/-! ### Helper lemmas: mapExcept -/

theorem mapExcept_ok_forall₂ {α β ε : Type _} {f : α → Except ε β} :
    ∀ {l : List α} {l' : List β}, mapExcept f l = .ok l' →
      List.Forall₂ (fun a b => f a = .ok b) l l' := by
  intro l
  induction l with
  | nil =>
    intro l' h
    simp only [mapExcept] at h
    injection h with h
    subst h
    exact List.Forall₂.nil
  | cons a as ih =>
    intro l' h
    simp only [mapExcept] at h
    cases hfa : f a with
    | error e =>
      rw [hfa] at h
      exact absurd h (by simp)
    | ok b =>
      rw [hfa] at h
      cases hrest : mapExcept f as with
      | error e =>
        rw [hrest] at h
        exact absurd h (by simp)
      | ok bs =>
        rw [hrest] at h
        injection h with h
        subst h
        exact List.Forall₂.cons hfa (ih hrest)

theorem forall₂_map_right_eq {α β : Type _} {R : α → β → Prop} {g : β → α}
    (hg : ∀ a b, R a b → g b = a) :
    ∀ {l : List α} {l' : List β}, List.Forall₂ R l l' → l'.map g = l := by
  intro l l' h
  induction h with
  | nil => rfl
  | cons hab _ ih => simp [ih, hg _ _ hab]

theorem forall₂_mem_right {α β : Type _} {R : α → β → Prop} :
    ∀ {l : List α} {l' : List β}, List.Forall₂ R l l' → ∀ b ∈ l', ∃ a ∈ l, R a b := by
  intro l l' h
  induction h with
  | nil =>
    intro b hb
    cases hb
  | cons hab _ ih =>
    intro b hb
    rcases List.mem_cons.mp hb with rfl | hb'
    · exact ⟨_, List.mem_cons_self _ _, hab⟩
    · obtain ⟨a, ha, hr⟩ := ih b hb'
      exact ⟨a, List.mem_cons_of_mem _ ha, hr⟩

/-! ### Claim C5 -/

/-- Claim C5: for every query vector, index and topN satisfying the
preconditions of findTopSimilar (that is, whenever it returns a result), the
result has exactly `min topN entryCount` entries and is a prefix of an
ordering of all indexed entries by real cosine similarity to the query,
descending, with entries of equal similarity kept in original index order. -/
theorem findTopSimilar_ranking (queryEmbedding : List ℚ) (keywordIndex : KeywordIndex)
    (topN : ℕ) (out : List KeywordEntry)
    (h : findTopSimilar queryEmbedding keywordIndex topN = .ok out) :
    out.length = min topN keywordIndex.keywords.length ∧
    ∃ S : List (ℕ × KeywordEntry),
      S.Perm keywordIndex.keywords.enum ∧
      S.Pairwise (RankedBefore queryEmbedding) ∧
      out = (S.take topN).map (·.2) := by
  rw [findTopSimilar] at h
  split at h
  · exact absurd h (by simp)
  · split_ifs at h
    split at h
    · exact absurd h (by simp)
    rename_i sims hme
    injection h with h
    subst h
    have hf2 := mapExcept_ok_forall₂ hme
    have hsimok : ∀ it ∈ sims, cosineSimilarity queryEmbedding it.entry.embedding = .ok it.sim := by
      intro it hit
      obtain ⟨a, _, hr⟩ := forall₂_mem_right hf2 it hit
      revert hr
      cases hcs : cosineSimilarity queryEmbedding a.2.embedding with
      | error e =>
        intro hr
        exact absurd hr (by simp)
      | ok s =>
        intro hr
        injection hr with hr
        subst hr
        exact hcs
    have hmap : sims.map (fun it => (it.pos, it.entry)) = keywordIndex.keywords.enum := by
      refine forall₂_map_right_eq ?_ hf2
      intro a b hr
      revert hr
      cases hcs : cosineSimilarity queryEmbedding a.2.embedding with
      | error e =>
        intro hr
        exact absurd hr (by simp)
      | ok s =>
        intro hr
        injection hr with hr
        subst hr
        rfl
    haveI : IsTotal SimItem (fun a b => simItemLe a b = true) := ⟨simItemLe_total⟩
    haveI : IsTrans SimItem (fun a b => simItemLe a b = true) := ⟨simItemLe_trans⟩
    have hsorted :
        List.Sorted (fun a b => simItemLe a b = true)
          (List.insertionSort (fun a b => simItemLe a b = true) sims) :=
      List.sorted_insertionSort _ _
    have hpermsort :
        (List.insertionSort (fun a b => simItemLe a b = true) sims).Perm sims :=
      List.perm_insertionSort _ _
    refine ⟨?_, (List.insertionSort (fun a b => simItemLe a b = true) sims).map
      (fun it => (it.pos, it.entry)), ?_, ?_, ?_⟩
    · rw [List.length_map, List.length_take, List.length_insertionSort]
      have hl : sims.length = keywordIndex.keywords.length := by
        rw [← List.enum_length (l := keywordIndex.keywords), ← hmap, List.length_map]
      rw [hl]
    · rw [← hmap]
      exact hpermsort.map _
    · rw [List.pairwise_map]
      refine List.Pairwise.imp_of_mem ?_ hsorted
      intro a b ha hb hr
      have haS : a ∈ sims := (List.mem_insertionSort _).mp ha
      have hbS : b ∈ sims := (List.mem_insertionSort _).mp hb
      have hrr := (simItemLe_iff a b).mp hr
      unfold RankedBefore
      rw [← cosineSimilarity_ok_real (hsimok a haS), ← cosineSimilarity_ok_real (hsimok b hbS)]
      exact hrr
    · rw [← List.map_take, List.map_map]
      rfl

/-- Witness for C5 at the mock index of the test suite: query `[1,0,0]` and
`topN = 2` return the first and fourth entries, in that order. -/
theorem findTopSimilar_ranking_witness :
    findTopSimilar [1, 0, 0] mockIndex 2 =
      .ok [⟨"keyword1", ["test"], [1, 0, 0]⟩, ⟨"keyword4", ["test"], [9/10, 1/10, 0]⟩] ∧
    ([(⟨"keyword1", ["test"], [1, 0, 0]⟩ : KeywordEntry),
      ⟨"keyword4", ["test"], [9/10, 1/10, 0]⟩].length = min 2 mockIndex.keywords.length ∧
     ∃ S : List (ℕ × KeywordEntry),
       S.Perm mockIndex.keywords.enum ∧
       S.Pairwise (RankedBefore [1, 0, 0]) ∧
       [(⟨"keyword1", ["test"], [1, 0, 0]⟩ : KeywordEntry),
        ⟨"keyword4", ["test"], [9/10, 1/10, 0]⟩] = (S.take 2).map (·.2)) := by
  have heval : findTopSimilar [1, 0, 0] mockIndex 2 =
      .ok [⟨"keyword1", ["test"], [1, 0, 0]⟩, ⟨"keyword4", ["test"], [9/10, 1/10, 0]⟩] := by
    norm_num [findTopSimilar, firstNonEmptyEmbedding, expectedDimensions, mockIndex,
      mapExcept, cosineSimilarity, sumSquares, dotProduct, simItemLe, SimVal.valEq,
      SimVal.le, List.insertionSort, List.orderedInsert, List.enum, List.enumFrom,
      List.find?, List.any]
  exact ⟨heval, findTopSimilar_ranking [1, 0, 0] mockIndex 2 _ heval⟩

/-! ### Claim C2 -/

theorem expectedDimensions_ne_zero {keywordIndex : KeywordIndex} {f : List ℚ}
    (hf : firstNonEmptyEmbedding keywordIndex = some f) :
    expectedDimensions keywordIndex ≠ 0 := by
  have hlen : 0 < f.length := by
    unfold firstNonEmptyEmbedding at hf
    cases hfind : keywordIndex.keywords.find? (fun e => 0 < e.embedding.length) with
    | none =>
      rw [hfind] at hf
      cases hf
    | some a =>
      rw [hfind] at hf
      injection hf with hf
      subst hf
      simpa using List.find?_some hfind
  unfold expectedDimensions
  cases hd : keywordIndex.embeddingDimensions with
  | none =>
    simp only [hf]
    omega
  | some d =>
    by_cases hdz : d = 0
    · subst hdz
      simp only [ne_eq, not_true_eq_false, if_false, hf]
      omega
    · simp only [ne_eq, hdz, not_false_eq_true, if_true]

/-- Claim C2 (amended): findTopSimilar performs three precondition checks in
this order, each failing with its own distinct error: (1) if the index has no
entry with a non-empty embedding it fails with the no-embeddings error;
(2) otherwise, if the query length differs from the expected dimension (the
declared embeddingDimensions when present and non-zero, else the length of
the first non-empty embedding) it fails with the dimension-mismatch error
carrying both lengths; (3) otherwise, if any entry embedding length differs
from the length of the FIRST NON-EMPTY embedding (not from the expected
dimension, which the declared embeddingDimensions can override) it fails with
the inconsistent-index error. -/
theorem findTopSimilar_checks (queryEmbedding : List ℚ) (keywordIndex : KeywordIndex)
    (topN : ℕ) :
    ((∀ e ∈ keywordIndex.keywords, e.embedding = []) →
      findTopSimilar queryEmbedding keywordIndex topN = .error .indexHasNoEmbeddings) ∧
    (∀ f, firstNonEmptyEmbedding keywordIndex = some f →
      queryEmbedding.length ≠ expectedDimensions keywordIndex →
      findTopSimilar queryEmbedding keywordIndex topN =
        .error (.dimensionMismatch queryEmbedding.length (expectedDimensions keywordIndex))) ∧
    (∀ f, firstNonEmptyEmbedding keywordIndex = some f →
      queryEmbedding.length = expectedDimensions keywordIndex →
      (∃ e ∈ keywordIndex.keywords, e.embedding.length ≠ f.length) →
      findTopSimilar queryEmbedding keywordIndex topN = .error .inconsistentIndex) := by
  refine ⟨?_, ?_, ?_⟩
  · intro hall
    have hfe : firstNonEmptyEmbedding keywordIndex = none := by
      unfold firstNonEmptyEmbedding
      rw [List.find?_eq_none.mpr]
      · rfl
      · intro e he
        simp [hall e he]
    rw [findTopSimilar, hfe]
  · intro f hf hne
    have hexp := expectedDimensions_ne_zero hf
    rw [findTopSimilar, hf]
    simp only [hexp, if_false, ne_eq, hne, not_false_eq_true, if_true]
  · intro f hf heq hex
    have hexp := expectedDimensions_ne_zero hf
    have hany : keywordIndex.keywords.any
        (fun e => e.embedding.length != f.length) = true := by
      obtain ⟨e, he, hel⟩ := hex
      exact List.any_eq_true.mpr ⟨e, he, by simpa [bne_iff_ne] using hel⟩
    rw [findTopSimilar, hf]
    simp only [hexp, if_false, heq, ne_eq, not_true_eq_false, hany, if_true]

/-- Counterexample for C2 as stated: with declared `embeddingDimensions = 2`,
a single entry of embedding length 3 and a query of length 2, the claim
predicts an InconsistentIndex failure (entry length 3 differs from the
expected dimension 2), but the code checks entries against the first
embedding length (3), passes all three checks, and then fails inside
cosineSimilarity with the vector-length error instead. -/
theorem findTopSimilar_checks_counterexample :
    findTopSimilar [1, 0]
        (KeywordIndex.mk [⟨"k", ["p"], [1, 1, 1]⟩] none none (some 2)) 5 =
      .error .vectorsMustHaveSameLength ∧
    (Except.error VError.vectorsMustHaveSameLength :
        Except VError (List KeywordEntry)) ≠ .error .inconsistentIndex := by
  constructor
  · norm_num [findTopSimilar, firstNonEmptyEmbedding, expectedDimensions, mapExcept,
      cosineSimilarity, sumSquares, dotProduct, List.enum, List.enumFrom, List.find?,
      List.any]
  · simp

/-- Witness for C2 (amended) discharging each of the three checks at a
concrete index. -/
theorem findTopSimilar_checks_witness :
    findTopSimilar [1, 0] (KeywordIndex.mk [⟨"a", [], []⟩] none none none) 5 =
      .error .indexHasNoEmbeddings ∧
    findTopSimilar [1, 0] mockIndex 5 = .error (.dimensionMismatch 2 3) ∧
    findTopSimilar [1, 1, 1]
        (KeywordIndex.mk [⟨"a", [], [1, 0, 0]⟩, ⟨"b", [], [1, 0]⟩] none none none) 5 =
      .error .inconsistentIndex := by
  have hf1 : firstNonEmptyEmbedding mockIndex = some [1, 0, 0] := by
    norm_num [firstNonEmptyEmbedding, mockIndex, List.find?]
  have hf2 : firstNonEmptyEmbedding
      (KeywordIndex.mk [⟨"a", [], [1, 0, 0]⟩, ⟨"b", [], [1, 0]⟩] none none none) =
      some [1, 0, 0] := by
    norm_num [firstNonEmptyEmbedding, List.find?]
  have hexp1 : expectedDimensions mockIndex = 3 := by
    norm_num [expectedDimensions, firstNonEmptyEmbedding, mockIndex, List.find?]
  have hexp2 : expectedDimensions
      (KeywordIndex.mk [⟨"a", [], [1, 0, 0]⟩, ⟨"b", [], [1, 0]⟩] none none none) = 3 := by
    norm_num [expectedDimensions, firstNonEmptyEmbedding, List.find?]
  refine ⟨?_, ?_, ?_⟩
  · exact (findTopSimilar_checks [1, 0] _ 5).1 (by
      intro e he
      simp only [List.mem_singleton] at he
      subst he
      rfl)
  · have := (findTopSimilar_checks [1, 0] mockIndex 5).2.1 [1, 0, 0] hf1 (by
      rw [hexp1]
      norm_num)
    rwa [hexp1, show ([1, 0] : List ℚ).length = 2 by norm_num] at this
  · exact (findTopSimilar_checks [1, 1, 1] _ 5).2.2 [1, 0, 0] hf2
      (by rw [hexp2]; norm_num)
      ⟨⟨"b", [], [1, 0]⟩, by norm_num, by norm_num⟩

/-! ### Claim C7 -/

theorem sumSquares_eq_zero_iff (v : List ℚ) : sumSquares v = 0 ↔ ∀ x ∈ v, x = 0 := by
  induction v with
  | nil => simp [sumSquares, dotProduct]
  | cons x xs ih =>
    have hc : sumSquares (x :: xs) = x * x + sumSquares xs := rfl
    rw [hc]
    rw [add_eq_zero_iff_of_nonneg (mul_self_nonneg x) (sumSquares_nonneg xs)]
    rw [mul_self_eq_zero, ih]
    simp

theorem cosineSimilarity_ok_of_length {vecA vecB : List ℚ}
    (h : vecA.length = vecB.length) : ∃ s, cosineSimilarity vecA vecB = .ok s := by
  rw [cosineSimilarity, if_neg (by simp [h])]
  by_cases hz : sumSquares vecA * sumSquares vecB = 0
  · rw [dif_pos hz]
    exact ⟨_, rfl⟩
  · rw [dif_neg hz]
    exact ⟨_, rfl⟩

/-- Claim C7: for equal-length vectors the similarity is the dot product over
the product of Euclidean norms when both norms are non-zero, and is exactly 0
(a returned value, not an error) when either norm is zero; the similarity of
a vector having a non-zero coordinate with itself is exactly 1 in this exact
arithmetic model (hence approximately 1 under floating point), that of an
all-zero vector with itself exactly 0; and vectors of unequal length fail
with the dimension error (the throw site reading "Vectors must have the same
length", the DimensionMismatch of the design taxonomy). -/
theorem cosineSimilarity_spec (vecA vecB v : List ℚ) :
    (vecA.length = vecB.length →
      Real.sqrt ((sumSquares vecA : ℚ) : ℝ) ≠ 0 →
      Real.sqrt ((sumSquares vecB : ℚ) : ℝ) ≠ 0 →
      ∃ s, cosineSimilarity vecA vecB = .ok s ∧
        (s.num : ℝ) / Real.sqrt (s.den : ℝ) =
          ((dotProduct vecA vecB : ℚ) : ℝ) /
            (Real.sqrt ((sumSquares vecA : ℚ) : ℝ) *
              Real.sqrt ((sumSquares vecB : ℚ) : ℝ))) ∧
    (vecA.length = vecB.length →
      (Real.sqrt ((sumSquares vecA : ℚ) : ℝ) = 0 ∨
        Real.sqrt ((sumSquares vecB : ℚ) : ℝ) = 0) →
      ∃ s, cosineSimilarity vecA vecB = .ok s ∧
        (s.num : ℝ) / Real.sqrt (s.den : ℝ) = 0) ∧
    ((∃ x ∈ v, x ≠ 0) →
      ∃ s, cosineSimilarity v v = .ok s ∧ (s.num : ℝ) / Real.sqrt (s.den : ℝ) = 1) ∧
    ((∀ x ∈ v, x = 0) →
      ∃ s, cosineSimilarity v v = .ok s ∧ (s.num : ℝ) / Real.sqrt (s.den : ℝ) = 0) ∧
    (vecA.length ≠ vecB.length →
      cosineSimilarity vecA vecB = .error .vectorsMustHaveSameLength) := by
  refine ⟨?_, ?_, ?_, ?_, ?_⟩
  · intro hlen _ _
    obtain ⟨s, hs⟩ := cosineSimilarity_ok_of_length hlen
    exact ⟨s, hs, cosineSimilarity_ok_real hs⟩
  · intro hlen hz
    obtain ⟨s, hs⟩ := cosineSimilarity_ok_of_length hlen
    refine ⟨s, hs, ?_⟩
    rw [cosineSimilarity_ok_real hs]
    rcases hz with h0 | h0 <;> rw [h0] <;> simp
  · intro hnz
    obtain ⟨s, hs⟩ := cosineSimilarity_ok_of_length (rfl : v.length = v.length)
    refine ⟨s, hs, ?_⟩
    rw [cosineSimilarity_ok_real hs]
    have hss : sumSquares v ≠ 0 := by
      rw [ne_eq, sumSquares_eq_zero_iff]
      intro hall
      obtain ⟨x, hx, hxne⟩ := hnz
      exact hxne (hall x hx)
    have hpos : (0 : ℝ) < ((sumSquares v : ℚ) : ℝ) := by
      have := lt_of_le_of_ne (sumSquares_nonneg v) (Ne.symm hss)
      exact_mod_cast this
    have hdot : dotProduct v v = sumSquares v := rfl
    rw [hdot, Real.mul_self_sqrt hpos.le]
    exact div_self (ne_of_gt hpos)
  · intro hall
    obtain ⟨s, hs⟩ := cosineSimilarity_ok_of_length (rfl : v.length = v.length)
    refine ⟨s, hs, ?_⟩
    rw [cosineSimilarity_ok_real hs]
    have hss : sumSquares v = 0 := (sumSquares_eq_zero_iff v).mpr hall
    have hdot : dotProduct v v = sumSquares v := rfl
    rw [hdot, hss]
    simp
  · intro hlen
    rw [cosineSimilarity, if_pos hlen]

/-- Witness for C7: the two unit vectors, the vector `[3, 4]` with itself,
the zero vector with itself, and a length mismatch. -/
theorem cosineSimilarity_spec_witness :
    (∃ s, cosineSimilarity [1, 0] [0, 1] = .ok s ∧
      (s.num : ℝ) / Real.sqrt (s.den : ℝ) =
        ((dotProduct [1, 0] [0, 1] : ℚ) : ℝ) /
          (Real.sqrt ((sumSquares [1, 0] : ℚ) : ℝ) *
            Real.sqrt ((sumSquares [0, 1] : ℚ) : ℝ))) ∧
    (∃ s, cosineSimilarity [3, 4] [3, 4] = .ok s ∧
      (s.num : ℝ) / Real.sqrt (s.den : ℝ) = 1) ∧
    (∃ s, cosineSimilarity [0, 0] [0, 0] = .ok s ∧
      (s.num : ℝ) / Real.sqrt (s.den : ℝ) = 0) ∧
    cosineSimilarity [1] [1, 2] = .error .vectorsMustHaveSameLength := by
  refine ⟨?_, ?_, ?_, ?_⟩
  · exact (cosineSimilarity_spec [1, 0] [0, 1] []).1 (by norm_num)
      (by
        rw [Real.sqrt_ne_zero']
        norm_num [sumSquares, dotProduct])
      (by
        rw [Real.sqrt_ne_zero']
        norm_num [sumSquares, dotProduct])
  · exact (cosineSimilarity_spec [] [] [3, 4]).2.2.1 ⟨3, by norm_num, by norm_num⟩
  · exact (cosineSimilarity_spec [] [] [0, 0]).2.2.2.1 (by
      intro x hx
      rcases List.mem_cons.mp hx with rfl | hx'
      · rfl
      · rcases List.mem_cons.mp hx' with rfl | hx''
        · rfl
        · cases hx'')
  · exact (cosineSimilarity_spec [1] [1, 2] []).2.2.2.2 (by norm_num)

/-! ### Claim C8 -/

/-- Claim C8: extractKeywordsFromLLMResponse is a total function of the parse
oracle and the input (it never fails); a parsed array yields its stringified,
trimmed, non-empty elements; a parsed record whose keywords field is an array
yields the same projection of that field; in every other case (parse failure,
any other parsed shape, or a record without an array keywords field) the raw
text is split on commas and newlines, each segment trimmed, and empty
segments and segments beginning with a bracket or an opening brace dropped;
in particular every returned fallback segment is a non-empty trimmed segment
of the input not beginning with a bracket or brace. -/
theorem extractKeywords_spec (jsonParse : String → Option Json) (response : String) :
    (∀ items, jsonParse response = some (.arr items) →
      extractKeywordsFromLLMResponse jsonParse response =
        (items.map (fun item => (⟨trimChars (jsToString item).data⟩ : String))).filter
          (· != "")) ∧
    (∀ fields items, jsonParse response = some (.obj fields) →
      fields.lookup "keywords" = some (.arr items) →
      extractKeywordsFromLLMResponse jsonParse response =
        (items.map (fun item => (⟨trimChars (jsToString item).data⟩ : String))).filter
          (· != "")) ∧
    ((∀ items, jsonParse response ≠ some (.arr items)) →
      (∀ fields items, jsonParse response = some (.obj fields) →
        fields.lookup "keywords" ≠ some (.arr items)) →
      extractKeywordsFromLLMResponse jsonParse response = fallbackSplit response) ∧
    (∀ s ∈ fallbackSplit response,
      s ≠ "" ∧ s.data.head? ≠ some '[' ∧ s.data.head? ≠ some (Char.ofNat 123) ∧
      ∃ seg ∈ splitOnPred (fun c => c = ',' || c = '\n') response.data,
        s.data = trimChars seg) := by
  refine ⟨?_, ?_, ?_, ?_⟩
  · intro items hp
    simp only [extractKeywordsFromLLMResponse, hp]
  · intro fields items hp hl
    simp only [extractKeywordsFromLLMResponse, hp, hl]
  · intro harr hobj
    cases hp : jsonParse response with
    | none => simp only [extractKeywordsFromLLMResponse, hp]
    | some j =>
      cases j with
      | arr items => exact absurd hp (harr items)
      | obj fields =>
        cases hl : fields.lookup "keywords" with
        | none => simp only [extractKeywordsFromLLMResponse, hp, hl]
        | some jv =>
          cases jv with
          | arr items => exact absurd hl (hobj fields items hp)
          | null => simp only [extractKeywordsFromLLMResponse, hp, hl]
          | bool b => simp only [extractKeywordsFromLLMResponse, hp, hl]
          | num q => simp only [extractKeywordsFromLLMResponse, hp, hl]
          | str s => simp only [extractKeywordsFromLLMResponse, hp, hl]
          | obj fs => simp only [extractKeywordsFromLLMResponse, hp, hl]
      | null => simp only [extractKeywordsFromLLMResponse, hp]
      | bool b => simp only [extractKeywordsFromLLMResponse, hp]
      | num q => simp only [extractKeywordsFromLLMResponse, hp]
      | str s => simp only [extractKeywordsFromLLMResponse, hp]
  · intro s hs
    unfold fallbackSplit at hs
    obtain ⟨seg, hseg, rfl⟩ := List.mem_map.mp hs
    obtain ⟨hmem, hcond⟩ := List.mem_filter.mp hseg
    obtain ⟨seg0, hseg0, rfl⟩ := List.mem_map.mp hmem
    simp only [Bool.and_eq_true, Bool.not_eq_true', beq_eq_false_iff_ne, ne_eq] at hcond
    refine ⟨?_, hcond.1.2, hcond.2, seg0, hseg0, rfl⟩
    intro hempty
    have : (trimChars seg0).isEmpty = true := by
      rw [show trimChars seg0 = (⟨trimChars seg0⟩ : String).data from rfl, hempty]
      rfl
    rw [this] at hcond
    exact absurd hcond.1.1 (by simp)

/-- Witness for C8: the three shapes at concrete inputs. -/
theorem extractKeywords_spec_witness :
    extractKeywordsFromLLMResponse
        (fun _ => some (.arr [.str " a ", .str "", .str "b"])) "x" = ["a", "b"] ∧
    extractKeywordsFromLLMResponse
        (fun _ => some (.obj [("keywords", .arr [.str "x"])])) "y" = ["x"] ∧
    extractKeywordsFromLLMResponse (fun _ => none) "a, , b\n[c" = ["a", "b"] := by
  refine ⟨?_, ?_, ?_⟩
  · rw [(extractKeywords_spec (fun _ => some (.arr [.str " a ", .str "", .str "b"])) "x").1
      [.str " a ", .str "", .str "b"] rfl]
    simp only [jsToString, List.map, List.filter]
    decide
  · rw [(extractKeywords_spec (fun _ => some (.obj [("keywords", .arr [.str "x"])])) "y").2.1
      [("keywords", .arr [.str "x"])] [.str "x"] rfl rfl]
    simp only [jsToString, List.map, List.filter]
    decide
  · rw [(extractKeywords_spec (fun _ => none) "a, , b\n[c").2.2.1
      (fun _ h => by cases h) (fun _ _ h => by cases h)]
    decide

/-! ### Claim C4 -/

theorem lexLeChars_cons_iff (x y : Char) (xs ys : List Char) :
    lexLeChars (x :: xs) (y :: ys) = true ↔
      (x < y ∨ (x = y ∧ lexLeChars xs ys = true)) := by
  simp only [lexLeChars]
  split_ifs with h1 h2
  · simp [h1]
  · simp [h2, h1]
  · constructor
    · intro h
      cases h
    · rintro (h | ⟨h, _⟩)
      · exact absurd h h1
      · exact absurd h h2

theorem lexLeChars_total (a : List Char) : ∀ b, lexLeChars a b = true ∨ lexLeChars b a = true := by
  induction a with
  | nil =>
    intro b
    exact Or.inl rfl
  | cons x xs ih =>
    intro b
    cases b with
    | nil => exact Or.inr rfl
    | cons y ys =>
      rw [lexLeChars_cons_iff, lexLeChars_cons_iff]
      rcases lt_trichotomy x y with h | h | h
      · exact Or.inl (Or.inl h)
      · rcases ih ys with h' | h'
        · exact Or.inl (Or.inr ⟨h, h'⟩)
        · exact Or.inr (Or.inr ⟨h.symm, h'⟩)
      · exact Or.inr (Or.inl h)

theorem lexLeChars_trans (a : List Char) :
    ∀ b c, lexLeChars a b = true → lexLeChars b c = true → lexLeChars a c = true := by
  induction a with
  | nil =>
    intro b c _ _
    rfl
  | cons x xs ih =>
    intro b c hab hbc
    cases b with
    | nil => cases hab
    | cons y ys =>
      cases c with
      | nil => cases hbc
      | cons z zs =>
        rw [lexLeChars_cons_iff] at hab hbc ⊢
        rcases hab with h1 | ⟨h1, h1'⟩ <;> rcases hbc with h2 | ⟨h2, h2'⟩
        · exact Or.inl (h1.trans h2)
        · exact Or.inl (h2 ▸ h1)
        · exact Or.inl (h1 ▸ h2)
        · exact Or.inr ⟨h1.trans h2, ih ys zs h1' h2'⟩

theorem scoredLe_iff (a b : ScoredKeyword) :
    scoredLe a b = true ↔
      (b.score < a.score ∨
        (a.score = b.score ∧ lexLeChars a.keyword.data b.keyword.data = true)) := by
  unfold scoredLe
  split_ifs with h
  · constructor
    · intro hl
      exact Or.inr ⟨h, hl⟩
    · rintro (hl | ⟨_, hl⟩)
      · rw [h] at hl
        exact absurd hl (lt_irrefl _)
      · exact hl
  · rw [decide_eq_true_eq]
    constructor
    · intro hl
      exact Or.inl hl
    · rintro (hl | ⟨heq, _⟩)
      · exact hl
      · exact absurd heq h

theorem scoredLe_total (a b : ScoredKeyword) : scoredLe a b = true ∨ scoredLe b a = true := by
  rw [scoredLe_iff, scoredLe_iff]
  rcases lt_trichotomy a.score b.score with h | h | h
  · exact Or.inr (Or.inl h)
  · rcases lexLeChars_total a.keyword.data b.keyword.data with h' | h'
    · exact Or.inl (Or.inr ⟨h, h'⟩)
    · exact Or.inr (Or.inr ⟨h.symm, h'⟩)
  · exact Or.inl (Or.inl h)

theorem scoredLe_trans (a b c : ScoredKeyword) (hab : scoredLe a b = true)
    (hbc : scoredLe b c = true) : scoredLe a c = true := by
  rw [scoredLe_iff] at hab hbc ⊢
  rcases hab with h1 | ⟨h1, h1'⟩ <;> rcases hbc with h2 | ⟨h2, h2'⟩
  · exact Or.inl (h2.trans h1)
  · exact Or.inl (h2 ▸ h1)
  · exact Or.inl (h1 ▸ h2)
  · exact Or.inr ⟨h1.trans h2, lexLeChars_trans _ _ _ h1' h2'⟩

/-- Claim C4 (amended): in the lexical fallback branch, entries scoring zero
are dropped; the surviving entries are ordered by score descending with ties
in lexicographic keyword order; the score of an entry is a fixed bonus of 3
for a whole-keyword substring match plus 1 per overlapping token (lowercase
alphanumeric run of length greater than 2). Consequently a substring-matched
entry outscores a token-only entry whenever the latter overlaps on at most
two tokens, but NOT in general: a token-only entry with enough overlapping
tokens can outscore a substring-matched one (see the counterexample). -/
theorem lexicalRanking_spec (description : String) (keywordIndex : KeywordIndex) :
    (∀ item ∈ lexicalRanking description keywordIndex, 0 < item.score) ∧
    (lexicalRanking description keywordIndex).Pairwise
      (fun a b => b.score < a.score ∨
        (a.score = b.score ∧ lexLeChars a.keyword.data b.keyword.data = true)) ∧
    (∀ k : String,
      lexicalScore (toLowerStr description) k =
        (if containsSeg (toLowerStr k).data (toLowerStr description).data then 3 else 0) +
          lexicalOverlap (toLowerStr description) (toLowerStr k)) ∧
    (∀ k1 k2 : String,
      containsSeg (toLowerStr k1).data (toLowerStr description).data = true →
      containsSeg (toLowerStr k2).data (toLowerStr description).data = false →
      lexicalOverlap (toLowerStr description) (toLowerStr k2) ≤ 2 →
      lexicalScore (toLowerStr description) k2 < lexicalScore (toLowerStr description) k1) := by
  refine ⟨?_, ?_, ?_, ?_⟩
  · intro item hitem
    have hmem : item ∈ (keywordIndex.keywords.map
        (fun e => ScoredKeyword.mk e.keyword
          (lexicalScore (toLowerStr description) e.keyword))).filter
        (fun item => decide (0 < item.score)) :=
      (List.mem_insertionSort _).mp hitem
    have := (List.mem_filter.mp hmem).2
    simpa using this
  · haveI : IsTotal ScoredKeyword (fun a b => scoredLe a b = true) := ⟨scoredLe_total⟩
    haveI : IsTrans ScoredKeyword (fun a b => scoredLe a b = true) := ⟨scoredLe_trans⟩
    have hsorted : List.Sorted (fun a b => scoredLe a b = true)
        (lexicalRanking description keywordIndex) :=
      List.sorted_insertionSort _ _
    exact hsorted.imp (fun h => (scoredLe_iff _ _).mp h)
  · intro k
    rfl
  · intro k1 k2 h1 h2 hov
    unfold lexicalScore
    rw [if_pos h1, if_neg (by simp [h2])]
    omega

/-- Counterexample for C4 as stated: in the description
"od abc def ghi jkl", the keyword "od" occurs as an exact substring (score
3 + 0 tokens) while "jkl abc def ghi" is matched only by token overlap
(4 tokens, score 4), so the token-only entry scores higher and is ranked
first, contradicting "exact substring match scores higher than any entry
matched only by partial token overlap". -/
theorem lexicalRanking_counterexample :
    containsSeg (toLowerStr "od").data (toLowerStr "od abc def ghi jkl").data = true ∧
    containsSeg (toLowerStr "jkl abc def ghi").data
      (toLowerStr "od abc def ghi jkl").data = false ∧
    lexicalScore (toLowerStr "od abc def ghi jkl") "od" <
      lexicalScore (toLowerStr "od abc def ghi jkl") "jkl abc def ghi" ∧
    lexicalRanking "od abc def ghi jkl"
        (KeywordIndex.mk [⟨"od", [], []⟩, ⟨"jkl abc def ghi", [], []⟩] none none none) =
      [⟨"jkl abc def ghi", 4⟩, ⟨"od", 3⟩] := by
  refine ⟨by decide, by decide, by decide, by decide⟩

/-- Witness for C4 (amended) at a concrete description and index. -/
theorem lexicalRanking_spec_witness :
    (∀ item ∈ lexicalRanking "the cat sat"
        (KeywordIndex.mk [⟨"cat", [], []⟩, ⟨"dog", [], []⟩] none none none),
      0 < item.score) ∧
    (lexicalRanking "the cat sat"
        (KeywordIndex.mk [⟨"cat", [], []⟩, ⟨"dog", [], []⟩] none none none)).Pairwise
      (fun a b => b.score < a.score ∨
        (a.score = b.score ∧ lexLeChars a.keyword.data b.keyword.data = true)) ∧
    containsSeg (toLowerStr "cat").data (toLowerStr "the cat sat").data = true ∧
    containsSeg (toLowerStr "dogma").data (toLowerStr "the cat sat").data = false ∧
    lexicalOverlap (toLowerStr "the cat sat") (toLowerStr "dogma") ≤ 2 ∧
    lexicalScore (toLowerStr "the cat sat") "dogma" <
      lexicalScore (toLowerStr "the cat sat") "cat" := by
  have h := lexicalRanking_spec "the cat sat"
    (KeywordIndex.mk [⟨"cat", [], []⟩, ⟨"dog", [], []⟩] none none none)
  exact ⟨h.1, h.2.1, by decide, by decide, by decide,
    h.2.2.2 "cat" "dogma" (by decide) (by decide) (by decide)⟩

/-! ### Claim C9 -/

/-- Claim C9 (amended): in the direct-return branch, when the supplied
keywordCount is truthy (in particular any non-zero integer) and its string
form parses to the integer n, the result is the first clamp(n, 1, 50)
shortlist entries filtered through the allowed set; when keywordCount is
absent — or falsy, such as the integer 0, which the claim as stated does not
except — the configured maximum target count (15) is the truncation bound
instead of clamp(0, 1, 50) = 1. -/
theorem directKeywords_spec (shortlistKeywords allowedKeywords : List String) :
    (∀ (kc : KCVal) (n : ℤ), kc.truthy = true →
      parseIntJS kc.toStringJS = .int n →
      directKeywords shortlistKeywords allowedKeywords kc =
        (shortlistKeywords.take (min (max n 1) 50).toNat).filter
          (allowedKeywords.contains ·)) ∧
    (directKeywords shortlistKeywords allowedKeywords .absent =
      (shortlistKeywords.take targetKeywordCountMax).filter
        (allowedKeywords.contains ·)) ∧
    (directKeywords shortlistKeywords allowedKeywords (.num (.int 0)) =
      (shortlistKeywords.take targetKeywordCountMax).filter
        (allowedKeywords.contains ·)) := by
  refine ⟨?_, ?_, ?_⟩
  · intro kc n ht hp
    unfold directKeywords requestedCount
    rw [if_pos ht, hp]
    have h1 : (0 : ℤ) ≤ min (max n 1) 50 := by
      have := le_max_right n 1
      omega
    simp [jsMax, jsMin, jsTake, h1]
  · simp [directKeywords, requestedCount, KCVal.truthy, jsTake, targetKeywordCountMax]
  · simp [directKeywords, requestedCount, KCVal.truthy, jsTake, targetKeywordCountMax]

/-- Counterexample for C9 as stated: the caller supplies the integer count 0,
clamp(0, 1, 50) = 1 predicts one entry, but 0 is falsy so the code uses the
configured maximum and returns both entries of this two-entry shortlist. -/
theorem directKeywords_counterexample :
    directKeywords ["a", "b"] ["a", "b"] (.num (.int 0)) = ["a", "b"] ∧
    (["a", "b"] : List String) ≠
      (["a", "b"].take (min (max (0 : ℤ) 1) 50).toNat).filter
        ((["a", "b"] : List String).contains ·) := by
  constructor
  · decide
  · decide

/-- Witness for C9 (amended): a truthy count "3" truncates to 3 entries, an
absent count to the configured maximum. -/
theorem directKeywords_spec_witness :
    directKeywords ["a", "b", "c", "d"] ["a", "b", "d"] (.str "3") =
      ((["a", "b", "c", "d"] : List String).take (min (max (3 : ℤ) 1) 50).toNat).filter
        ((["a", "b", "d"] : List String).contains ·) ∧
    directKeywords ["a", "b", "c", "d"] ["a", "b", "d"] .absent =
      ((["a", "b", "c", "d"] : List String).take targetKeywordCountMax).filter
        ((["a", "b", "d"] : List String).contains ·) := by
  exact ⟨(directKeywords_spec ["a", "b", "c", "d"] ["a", "b", "d"]).1 (.str "3") 3
      (by decide) (by decide),
    (directKeywords_spec ["a", "b", "c", "d"] ["a", "b", "d"]).2.1⟩

/-! ### Claim C10 -/

/-- Claim C10: a truthy keywordCount whose string form does not parse as an
integer makes the clamping expression NaN; `slice(0, NaN)` is empty, so both
the lexical and the direct branch return a successful response whose keyword
list is empty (neither an error nor a default-sized result). -/
theorem nanCount_empty (kc : KCVal) (ht : kc.truthy = true)
    (hp : parseIntJS kc.toStringJS = .nan) :
    requestedCount kc = .nan ∧
    (∀ shortlistKeywords allowedKeywords : List String,
      directKeywords shortlistKeywords allowedKeywords kc = []) ∧
    (∀ (description : String) (keywordIndex : KeywordIndex)
      (allowedKeywords : List String),
      lexicalKeywords description keywordIndex kc allowedKeywords = []) ∧
    (∀ (keywordIndex : KeywordIndex) (description : String)
      (embedOutcome : Except String (List ℚ)) (generationOutcome : Except String String)
      (jsonParse : String → Option Json),
      description ≠ "" →
      post (Config.mk false false false) (MatchRequest.mk description false kc)
        (some keywordIndex) none embedOutcome generationOutcome jsonParse =
        .ok (MatchResponse.mk [] keywordIndex.keywords.length 0 .lexical)) := by
  have hreq : requestedCount kc = .nan := by
    unfold requestedCount
    rw [if_pos ht, hp]
    rfl
  have hdir : ∀ shortlistKeywords allowedKeywords : List String,
      directKeywords shortlistKeywords allowedKeywords kc = [] := by
    intro sk ak
    unfold directKeywords
    rw [hreq]
    rfl
  have hlex : ∀ (description : String) (keywordIndex : KeywordIndex)
      (allowedKeywords : List String),
      lexicalKeywords description keywordIndex kc allowedKeywords = [] := by
    intro d ki ak
    unfold lexicalKeywords
    rw [hreq]
    rfl
  refine ⟨hreq, hdir, hlex, ?_⟩
  intro keywordIndex description embedOutcome generationOutcome jsonParse hd
  simp only [post, loadKeywordIndex, getAllowedKeywordsSet, hd, if_false, Bool.false_and,
    Bool.and_self, Bool.not_false, Bool.and_true, if_true, hlex]
  simp [hd]

/-- Witness for C10 at the non-numeric count "abc". -/
theorem nanCount_empty_witness :
    requestedCount (.str "abc") = .nan ∧
    directKeywords ["a"] ["a"] (.str "abc") = [] ∧
    lexicalKeywords "x" (KeywordIndex.mk [⟨"a", [], []⟩] none none none)
      (.str "abc") ["a"] = [] ∧
    post (Config.mk false false false) (MatchRequest.mk "x" false (.str "abc"))
        (some (KeywordIndex.mk [⟨"a", [], []⟩] none none none)) none
        (.error "no embedding") (.error "no llm") (fun _ => none) =
      .ok (MatchResponse.mk [] 1 0 .lexical) := by
  have h := nanCount_empty (.str "abc") (by decide) (by decide)
  exact ⟨h.1, h.2.1 ["a"] ["a"],
    h.2.2.1 "x" (KeywordIndex.mk [⟨"a", [], []⟩] none none none) ["a"],
    h.2.2.2 (KeywordIndex.mk [⟨"a", [], []⟩] none none none) "x"
      (.error "no embedding") (.error "no llm") (fun _ => none) (by decide)⟩

/-! ### Claim C6 -/

/-- Claim C6: in the refinement branch, when fewer candidates than the
configured minimum survive validation, the final result discards the
generation output and is the top shortlist keywords capped at the configured
maximum (the defensive re-filter through the allowed set drops nothing, since
every shortlist keyword is an allowed keyword); otherwise the validated list
itself, capped at the configured maximum, is returned. -/
theorem llmFinalKeywords_spec
    (shortlistKeywords validatedKeywords allowedKeywords : List String)
    (hsub : ∀ k ∈ shortlistKeywords, allowedKeywords.contains k = true) :
    (validatedKeywords.length < targetKeywordCountMin →
      llmFinalKeywords shortlistKeywords validatedKeywords allowedKeywords =
        shortlistKeywords.take targetKeywordCountMax) ∧
    (targetKeywordCountMin ≤ validatedKeywords.length →
      llmFinalKeywords shortlistKeywords validatedKeywords allowedKeywords =
        validatedKeywords.take targetKeywordCountMax) := by
  constructor
  · intro hlt
    unfold llmFinalKeywords
    rw [if_pos hlt]
    exact List.filter_eq_self.mpr fun a ha => hsub a (List.take_subset _ _ ha)
  · intro hge
    unfold llmFinalKeywords
    rw [if_neg (not_lt.mpr hge)]

/-- Witness for C6: an under-validated result falls back to the capped
shortlist; a sufficiently validated result is returned capped. -/
theorem llmFinalKeywords_spec_witness :
    llmFinalKeywords ["a", "b"] ["a"] ["a", "b"] = (["a", "b"] : List String).take
      targetKeywordCountMax ∧
    llmFinalKeywords ["a", "b"]
        ["v1", "v2", "v3", "v4", "v5", "v6", "v7", "v8", "v9", "v10", "v11",
         "v12", "v13", "v14", "v15", "v16"] ["a", "b"] =
      (["v1", "v2", "v3", "v4", "v5", "v6", "v7", "v8", "v9", "v10", "v11",
        "v12", "v13", "v14", "v15", "v16"] : List String).take targetKeywordCountMax := by
  constructor
  · exact (llmFinalKeywords_spec ["a", "b"] ["a"] ["a", "b"] (by decide)).1 (by decide)
  · exact (llmFinalKeywords_spec ["a", "b"]
      ["v1", "v2", "v3", "v4", "v5", "v6", "v7", "v8", "v9", "v10", "v11",
       "v12", "v13", "v14", "v15", "v16"] ["a", "b"] (by decide)).2 (by decide)

/-! ### Claim C3 -/

/-- Claim C3 (amended): when no persisted index exists, the loader
synthesizes the degraded all-empty-embeddings index from the taxonomy source
if and only if the OpenAI credential is not configured; the Gemini and
OpenRouter credentials play no part in this decision (contrary to the claim
as stated, which requires failure when ANY credential is configured); when
the OpenAI credential is configured and the persisted index is absent,
loading fails. -/
theorem loadKeywordIndex_spec (cfg : Config)
    (keywordsFile : List (String × List String)) :
    (cfg.openaiApiKey = false →
      loadKeywordIndex cfg none (some keywordsFile) =
        .ok (KeywordIndex.mk
          (keywordsFile.map (fun k => KeywordEntry.mk k.1 k.2 [])) none none none)) ∧
    (cfg.openaiApiKey = true →
      loadKeywordIndex cfg none (some keywordsFile) = .error .indexNotFound) := by
  constructor
  · intro h
    simp [loadKeywordIndex, buildKeywordIndexFromKeywords, h]
  · intro h
    simp [loadKeywordIndex, h]

/-- Counterexample for C3 as stated: the Gemini credential is configured (an
embedding/generation credential in the sense of the claim), the persisted
index is absent, and loading nevertheless succeeds with the degraded index
instead of failing. -/
theorem loadKeywordIndex_counterexample :
    loadKeywordIndex (Config.mk false true false) none (some [("a", ["r"])]) =
      .ok (KeywordIndex.mk [KeywordEntry.mk "a" ["r"] []] none none none) := by
  simp [loadKeywordIndex, buildKeywordIndexFromKeywords]

/-- Witness for C3 (amended): no credential at all degrades; the OpenAI
credential forces the failure. -/
theorem loadKeywordIndex_spec_witness :
    loadKeywordIndex (Config.mk false false false) none (some [("a", ["r"])]) =
      .ok (KeywordIndex.mk [KeywordEntry.mk "a" ["r"] []] none none none) ∧
    loadKeywordIndex (Config.mk true false false) none (some [("a", ["r"])]) =
      .error .indexNotFound := by
  exact ⟨(loadKeywordIndex_spec (Config.mk false false false) [("a", ["r"])]).1 rfl,
    (loadKeywordIndex_spec (Config.mk true false false) [("a", ["r"])]).2 rfl⟩

/-! ### Claim C1 -/

theorem mem_of_mem_filter_contains {allowedKeywords l : List String} {k : String}
    (hk : k ∈ l.filter (allowedKeywords.contains ·)) : k ∈ allowedKeywords := by
  have := (List.mem_filter.mp hk).2
  simpa using this

theorem mem_of_mem_validateKeywordsJ {candidates : List Json}
    {allowedKeywords : List String} {k : String}
    (hk : k ∈ validateKeywordsJ candidates allowedKeywords) : k ∈ allowedKeywords := by
  unfold validateKeywordsJ at hk
  obtain ⟨c, _, hc⟩ := List.mem_filterMap.mp hk
  cases c with
  | str s =>
    simp only at hc
    split_ifs at hc with h
    injection hc with hc
    subst hc
    simpa using h
  | null => cases hc
  | bool b => cases hc
  | num q => cases hc
  | arr l => cases hc
  | obj f => cases hc

theorem mem_of_mem_llmFinalKeywords {shortlistKeywords validatedKeywords
    allowedKeywords : List String} {k : String}
    (hval : ∀ k ∈ validatedKeywords, k ∈ allowedKeywords)
    (hk : k ∈ llmFinalKeywords shortlistKeywords validatedKeywords allowedKeywords) :
    k ∈ allowedKeywords := by
  unfold llmFinalKeywords at hk
  split_ifs at hk with h
  · exact mem_of_mem_filter_contains hk
  · exact hval k (List.take_subset _ _ hk)

/-- Claim C1: every keyword string appearing in a successful response of the
POST handler is a member of the allowed keyword set derived from the loaded
index, whichever branch (lexical, direct or llm) produced it and whatever the
generation provider returned. -/
theorem post_keywords_allowed (cfg : Config) (req : MatchRequest)
    (persisted : Option KeywordIndex)
    (keywordsFile : Option (List (String × List String)))
    (embedOutcome : Except String (List ℚ)) (generationOutcome : Except String String)
    (jsonParse : String → Option Json) (keywordIndex : KeywordIndex)
    (resp : MatchResponse)
    (hload : loadKeywordIndex cfg persisted keywordsFile = .ok keywordIndex)
    (hpost : post cfg req persisted keywordsFile embedOutcome generationOutcome
      jsonParse = .ok resp) :
    ∀ k ∈ resp.keywords, k ∈ getAllowedKeywordsSet keywordIndex := by
  unfold post at hpost
  by_cases hd : req.description = ""
  · rw [if_pos hd] at hpost
    exact absurd hpost (by simp)
  rw [if_neg hd] at hpost
  simp only [hload] at hpost
  by_cases hkey :
      (req.useLLM && !cfg.openaiApiKey && !cfg.geminiApiKey && !cfg.openrouterApiKey) = true
  · rw [if_pos hkey] at hpost
    exact absurd hpost (by simp)
  rw [if_neg hkey] at hpost
  by_cases hlex : (!cfg.openaiApiKey && !cfg.geminiApiKey && !req.useLLM) = true
  · rw [if_pos hlex] at hpost
    injection hpost with hpost
    subst hpost
    intro k hk
    exact mem_of_mem_filter_contains hk
  rw [if_neg hlex] at hpost
  cases embedOutcome with
  | error msg => exact absurd hpost (by simp)
  | ok descriptionEmbedding =>
    simp only at hpost
    cases hfts : findTopSimilar descriptionEmbedding keywordIndex shortlistSizeDefault with
    | error e =>
      rw [hfts] at hpost
      exact absurd hpost (by simp)
    | ok shortlist =>
      simp only [hfts] at hpost
      by_cases huse : (!req.useLLM) = true
      · rw [if_pos huse] at hpost
        injection hpost with hpost
        subst hpost
        intro k hk
        exact mem_of_mem_filter_contains hk
      rw [if_neg huse] at hpost
      cases generationOutcome with
      | error msg => exact absurd hpost (by simp)
      | ok llmContent =>
        simp only at hpost
        injection hpost with hpost
        subst hpost
        intro k hk
        exact mem_of_mem_llmFinalKeywords
          (fun k' hk' => mem_of_mem_validateKeywordsJ hk') hk

/-- Witness for C1: a full lexical-mode request; the returned keyword is in
the allowed set of the loaded index. -/
theorem post_keywords_allowed_witness :
    loadKeywordIndex (Config.mk false false false)
        (some (KeywordIndex.mk [⟨"cat", [], []⟩, ⟨"dog", [], []⟩] none none none)) none =
      .ok (KeywordIndex.mk [⟨"cat", [], []⟩, ⟨"dog", [], []⟩] none none none) ∧
    post (Config.mk false false false) (MatchRequest.mk "the cat" false .absent)
        (some (KeywordIndex.mk [⟨"cat", [], []⟩, ⟨"dog", [], []⟩] none none none)) none
        (.error "no embedding") (.error "no llm") (fun _ => none) =
      .ok (MatchResponse.mk ["cat"] 2 1 .lexical) ∧
    ∀ k ∈ (MatchResponse.mk ["cat"] 2 1 Method.lexical).keywords,
      k ∈ getAllowedKeywordsSet
        (KeywordIndex.mk [⟨"cat", [], []⟩, ⟨"dog", [], []⟩] none none none) := by
  have hload : loadKeywordIndex (Config.mk false false false)
      (some (KeywordIndex.mk [⟨"cat", [], []⟩, ⟨"dog", [], []⟩] none none none)) none =
      .ok (KeywordIndex.mk [⟨"cat", [], []⟩, ⟨"dog", [], []⟩] none none none) := by
    simp [loadKeywordIndex]
  have hpost : post (Config.mk false false false) (MatchRequest.mk "the cat" false .absent)
      (some (KeywordIndex.mk [⟨"cat", [], []⟩, ⟨"dog", [], []⟩] none none none)) none
      (.error "no embedding") (.error "no llm") (fun _ => none) =
      .ok (MatchResponse.mk ["cat"] 2 1 .lexical) := by
    simp only [post, loadKeywordIndex, getAllowedKeywordsSet]
    decide
  exact ⟨hload, hpost,
    post_keywords_allowed (Config.mk false false false)
      (MatchRequest.mk "the cat" false .absent)
      (some (KeywordIndex.mk [⟨"cat", [], []⟩, ⟨"dog", [], []⟩] none none none)) none
      (.error "no embedding") (.error "no llm") (fun _ => none)
      (KeywordIndex.mk [⟨"cat", [], []⟩, ⟨"dog", [], []⟩] none none none)
      (MatchResponse.mk ["cat"] 2 1 .lexical) hload hpost⟩
